import Mathlib

/-
Shallow embedding of the offline-first synchronization subsystem of the
ParkingPro parking-audit PWA.

Sources embedded here:
  * client/public/sw.js — the service worker: IndexedDB store `pendingAudits`
    (`addPendingAudit`, `getPendingAudits`, `markAuditSynced`), the sync pass
    `syncOfflineEntries`, and the `message` event handler.
  * client/src/lib/storage.ts — `LocalStorageService` over the localStorage
    key `pendingAuditEntries`.
  * client/src/pages/settings-view.tsx — `handleClearLocalData`.
  * client/src/pages/history-view.tsx — the merged history feed
    (pending IndexedDB entries converted and merged with server entries).

Conventions of the embedding:
  * JavaScript async functions become pure state-passing functions; the
    IndexedDB database is a `PendingStore` value threaded explicitly.
  * Machine-visible effects of a sync pass (each `fetch` POST and each
    `markAuditSynced` call) are recorded in a ghost event trace
    (`List SyncEvent`).  The trace is a specification observer, not a value
    the JavaScript functions return: `syncOfflineEntries` in the source
    returns `undefined`, and the only value channel back to a caller of the
    service worker is a message-port reply (`PortReply`).
  * Timestamps are milliseconds since epoch as `Nat`.  The history view
    converts the stored millisecond timestamp to an ISO string and compares
    entries via `new Date(x).getTime()`; since that round trip is
    order-preserving, timestamps stay `Nat` throughout.
  * The remote server's per-record outcome is an environment parameter
    `remote : Nat → RemoteOutcome`, keyed by the record's local id.
-/

/-- The audit fields that `sw.js` sends to the server for one offline entry:
in `syncOfflineEntries` the stored object minus the IndexedDB-specific
fields `id`, `timestamp`, `synced` (display-only image fields omitted). -/
structure AuditPayload where
  plateNumber : String
  authorizationStatus : String
  location : Option String
  parkingZone : Option String
  notes : Option String
  ocrConfidence : Option Nat
  deriving DecidableEq, Repr

/-- One object of the IndexedDB `pendingAudits` store: the payload spread
together with the key `id` (autoIncrement), `timestamp: Date.now()` and
`synced: false` added by `addPendingAudit`. -/
structure StoredAudit where
  id : Nat
  payload : AuditPayload
  timestamp : Nat
  synced : Bool
  deriving DecidableEq, Repr

/-- The IndexedDB `pendingAudits` object store.  `records` is kept in
primary-key order: `getAll()` returns records in ascending key order, and
the autoIncrement generator hands out strictly increasing keys, so key
order coincides with insertion order. -/
structure PendingStore where
  records : List StoredAudit
  nextId : Nat
  deriving DecidableEq, Repr

/-- A freshly created `pendingAudits` store (IndexedDB autoIncrement keys
start at 1). -/
def emptyStore : PendingStore := { records := [], nextId := 1 }

/-- sw.js `addPendingAudit(audit)`: `store.add({...audit, timestamp: Date.now(),
synced: false})`.  `now` is the value of `Date.now()` at the call. -/
def addPendingAudit (audit : AuditPayload) (now : Nat) (s : PendingStore) : PendingStore :=
  { records := s.records ++
      [{ id := s.nextId, payload := audit, timestamp := now, synced := false }],
    nextId := s.nextId + 1 }

/-- sw.js `getPendingAudits()`: `store.getAll()` filtered by
`audit => !audit.synced`. -/
def getPendingAudits (s : PendingStore) : List StoredAudit :=
  s.records.filter (fun a => !a.synced)

/-- The effect of `store.put` in `markAuditSynced` on one stored object:
the object whose key matches is replaced by a copy with `synced = true`. -/
def setSyncedIf (i : Nat) (r : StoredAudit) : StoredAudit :=
  if r.id = i then { r with synced := true } else r

/-- sw.js `markAuditSynced(id)`: `store.get(id)`; if an object was found,
set its `synced` field to `true` and `store.put` it back; otherwise do
nothing. -/
def markAuditSynced (i : Nat) (s : PendingStore) : PendingStore :=
  match s.records.find? (fun r => r.id == i) with
  | some _ => { s with records := s.records.map (setSyncedIf i) }
  | none => s

/-- Outcome of the `fetch('/api/audit-entries', {method:'POST', ...})` for one
record: the server acknowledges (`response.ok`), the server answers with a
non-2xx status (`response.ok` false), or the fetch itself throws (network
error, handled by the per-record `catch`). -/
inductive RemoteOutcome where
  | ok
  | httpError
  | netError
  deriving DecidableEq, Repr

/-- Ghost event recorded while a sync pass runs: `post i p` is the POST of
payload `p` of the stored record with key `i` to `/api/audit-entries`;
`mark i` is an invocation of `markAuditSynced i`. -/
inductive SyncEvent where
  | post (i : Nat) (payload : AuditPayload)
  | mark (i : Nat)
  deriving DecidableEq, Repr

/-- The `for (const audit of pendingAudits)` loop body of
`syncOfflineEntries`, over the snapshot list taken at the start of the
pass.  Per record: POST the payload; on `response.ok` call
`markAuditSynced(id)` before moving to the next record; on a non-ok
response or a thrown fetch error leave the record untouched and continue
(the per-record try/catch). -/
def syncLoop (remote : Nat → RemoteOutcome) :
    List StoredAudit → PendingStore → PendingStore × List SyncEvent
  | [], s => (s, [])
  | a :: rest, s =>
    match remote a.id with
    | RemoteOutcome.ok =>
      let s1 := markAuditSynced a.id s
      let out := syncLoop remote rest s1
      (out.1, SyncEvent.post a.id a.payload :: SyncEvent.mark a.id :: out.2)
    | RemoteOutcome.httpError =>
      let out := syncLoop remote rest s
      (out.1, SyncEvent.post a.id a.payload :: out.2)
    | RemoteOutcome.netError =>
      let out := syncLoop remote rest s
      (out.1, SyncEvent.post a.id a.payload :: out.2)

/-- sw.js `syncOfflineEntries()`: read the pending snapshot with
`getPendingAudits()`, then run the per-record loop.  The JavaScript
function returns `undefined`; the second component here is the ghost
event trace, not a returned value. -/
def syncOfflineEntries (remote : Nat → RemoteOutcome) (s : PendingStore) :
    PendingStore × List SyncEvent :=
  syncLoop remote (getPendingAudits s) s

/-- Messages the sw.js `message` event handler reacts to. -/
inductive SWMessage where
  | skipWaiting
  | syncAudits
  | storeOfflineAudit (audit : AuditPayload)

/-- The reply the handler posts back through `event.ports[0]` (only the
`STORE_OFFLINE_AUDIT` branch posts one). -/
structure PortReply where
  success : Bool
  error : Option String
  deriving DecidableEq, Repr

/-- Fate of the IndexedDB write behind one `STORE_OFFLINE_AUDIT` message.
sw.js `addPendingAudit` ends with `return store.add(...)`: the `IDBRequest`
is returned unawaited, so the async function's promise resolves as soon as
the add request has been issued, and only `openDB` rejecting or
`store.add` throwing synchronously (e.g. a structured-clone failure on the
payload) can reject that promise.  An asynchronous failure of the issued
request — notably `QuotaExceededError` on storage exhaustion — happens
after the promise has already resolved and aborts the write without the
promise ever seeing it. -/
inductive AddOutcome where
  | ok
  | earlyErr (msg : String)
  | lateErr

/-- sw.js `message` event handler.  `now` is `Date.now()`; `addFate` is
the fate of the IndexedDB add behind `STORE_OFFLINE_AUDIT`.  The
`SYNC_AUDITS` branch calls `syncOfflineEntries()` and posts no reply — its
promise value is discarded.  The `STORE_OFFLINE_AUDIT` branch posts
through the port: `{success: false, error}` when the `addPendingAudit`
promise rejects (`earlyErr`: `openDB` rejection or a synchronous
`store.add` throw, before which nothing is stored), and `{success: true}`
as soon as that promise resolves — which, because the `store.add` request
is unawaited, includes the `lateErr` case where the issued request then
fails asynchronously (e.g. quota exhaustion) and nothing is stored despite
the success reply. -/
def handleMessage (msg : SWMessage) (remote : Nat → RemoteOutcome) (now : Nat)
    (addFate : AddOutcome) (s : PendingStore) : PendingStore × Option PortReply :=
  match msg with
  | SWMessage.skipWaiting => (s, none)
  | SWMessage.syncAudits => ((syncOfflineEntries remote s).1, none)
  | SWMessage.storeOfflineAudit a =>
    match addFate with
    | AddOutcome.ok => (addPendingAudit a now s, some { success := true, error := none })
    | AddOutcome.earlyErr e => (s, some { success := false, error := some e })
    | AddOutcome.lateErr => (s, some { success := true, error := none })

/-- One entry of the localStorage queue `pendingAuditEntries`
(storage.ts `OfflineAuditEntry`; image data-URL fields omitted as
display-only). -/
structure OfflineAuditEntry where
  plateNumber : String
  latitude : Option String
  longitude : Option String
  location : Option String
  parkingZone : String
  ocrConfidence : Nat
  authorizationStatus : String
  notes : Option String
  timestamp : String
  offlineEntry : Bool
  deriving DecidableEq, Repr

/-- The localStorage keys touched by `LocalStorageService` and
`handleClearLocalData`; a key maps to `none` when absent
(`localStorage.getItem` returns `null`).  The `pendingAuditEntries` value
is kept parsed; `currentCapture` is opaque here. -/
structure LocalStorageState where
  pendingAuditEntries : Option (List OfflineAuditEntry)
  currentCapture : Option String
  deriving DecidableEq, Repr

/-- storage.ts `LocalStorageService.getPendingEntries()`: parse the stored
JSON, or `[]` when the key is absent. -/
def getPendingEntries (st : LocalStorageState) : List OfflineAuditEntry :=
  match st.pendingAuditEntries with
  | some l => l
  | none => []

/-- storage.ts `LocalStorageService.addPendingEntry(entry)`: read the
entries, push, `setItem`.  The body is wrapped in try/catch whose catch
clause only calls `console.error` — so when `setItem` throws
(`quotaFull = true`, storage exhaustion) the queue is left unchanged and
the caller still receives plain `undefined`.  The second component makes
the value delivered to the caller explicit: it is `none` on every path
(the function returns `void` and rethrows nothing). -/
def addPendingEntry (quotaFull : Bool) (e : OfflineAuditEntry) (st : LocalStorageState) :
    LocalStorageState × Option String :=
  if quotaFull then (st, none)
  else ({ st with pendingAuditEntries := some (getPendingEntries st ++ [e]) }, none)

/-- storage.ts `LocalStorageService.removePendingEntry(index)`:
`entries.splice(index, 1)` then `setItem`. -/
def removePendingEntry (idx : Nat) (st : LocalStorageState) : LocalStorageState :=
  { st with pendingAuditEntries := some ((getPendingEntries st).eraseIdx idx) }

/-- storage.ts `LocalStorageService.clearPendingEntries()`:
`localStorage.removeItem('pendingAuditEntries')`. -/
def clearPendingEntries (st : LocalStorageState) : LocalStorageState :=
  { st with pendingAuditEntries := none }

/-- settings-view.tsx `handleClearLocalData`: after the user confirms the
dialog, remove the `pendingAuditEntries` and `currentCapture` keys. -/
def handleClearLocalData (confirmed : Bool) (st : LocalStorageState) : LocalStorageState :=
  if confirmed then { pendingAuditEntries := none, currentCapture := none }
  else st

/-- The two client-side offline stores together: the IndexedDB
`pendingAudits` store drained by sw.js, and the localStorage queue written
by the confirmation view's `saveToLocalStorage` /
`LocalStorageService.addPendingEntry`. -/
structure ClientState where
  idb : PendingStore
  ls : LocalStorageState
  deriving DecidableEq, Repr

/-- `syncOfflineEntries` on the full client state.  The source function in
sw.js uses only the IndexedDB helpers (`getPendingAudits`,
`markAuditSynced`) and `fetch`; it contains no reference to localStorage,
so the `ls` component is carried through untouched. -/
def syncOfflineEntriesClient (remote : Nat → RemoteOutcome) (c : ClientState) :
    ClientState × List SyncEvent :=
  let out := syncOfflineEntries remote c.idb
  ({ c with idb := out.1 }, out.2)

/-- One entry of the history feed (history-view.tsx `AuditEntry`; image
path fields omitted as display-only).  Server entries carry
`isOffline = false` (the field is absent, hence falsy, on server rows). -/
structure FeedEntry where
  id : String
  plateNumber : String
  authorizationStatus : String
  timestamp : Nat
  location : Option String
  parkingZone : Option String
  notes : Option String
  ocrConfidence : Option Nat
  isOffline : Bool
  deriving DecidableEq, Repr

/-- history-view.tsx `getPendingAudits` conversion of one raw IndexedDB
object to a feed entry: `id: offline-${audit.id}`, fallbacks
`audit.plateNumber || UNKNOWN` and `audit.authorizationStatus || unknown`
(the empty string is falsy), `isOffline: true`. -/
def toFeedEntry (a : StoredAudit) : FeedEntry :=
  { id := "offline-" ++ toString a.id
    plateNumber := if a.payload.plateNumber = "" then "UNKNOWN" else a.payload.plateNumber
    authorizationStatus :=
      if a.payload.authorizationStatus = "" then "unknown" else a.payload.authorizationStatus
    timestamp := a.timestamp
    location := a.payload.location
    parkingZone := a.payload.parkingZone
    notes := a.payload.notes
    ocrConfidence := a.payload.ocrConfidence
    isOffline := true }

/-- history-view.tsx `getPendingAudits()`: read all objects of the
`pendingAudits` store, keep those with `!audit.synced`, convert each. -/
def getPendingAuditsView (s : PendingStore) : List FeedEntry :=
  (s.records.filter (fun a => !a.synced)).map toFeedEntry

/-- Character-list prefix test (helper for the JavaScript
`String.prototype.includes`). -/
def charsPre : List Char → List Char → Bool
  | [], _ => true
  | _ :: _, [] => false
  | a :: as, b :: bs => a == b && charsPre as bs

/-- Character-list substring test (helper for the JavaScript
`String.prototype.includes`). -/
def charsSub (needle : List Char) : List Char → Bool
  | [] => needle.isEmpty
  | b :: bs => charsPre needle (b :: bs) || charsSub needle bs

/-- JavaScript `hay.includes(needle)` on strings. -/
def strIncludes (hay needle : String) : Bool :=
  charsSub needle.toList hay.toList

/-- The text filter of the history query: `searchTerm ? offline.filter(entry =>
entry.plateNumber.toLowerCase().includes(searchTerm.toLowerCase())) : offline`
(the empty search term is falsy, so it applies no filter). -/
def applyFilter (searchTerm : String) (entries : List FeedEntry) : List FeedEntry :=
  if searchTerm = "" then entries
  else entries.filter (fun e => strIncludes e.plateNumber.toLower searchTerm.toLower)

/-- One insertion step of the timestamp-descending sort
(`allEntries.sort((a, b) => new Date(b.timestamp).getTime() - new
Date(a.timestamp).getTime())`, a stable sort per ES2019). -/
def insertDesc (e : FeedEntry) : List FeedEntry → List FeedEntry
  | [] => [e]
  | x :: xs => if x.timestamp < e.timestamp then e :: x :: xs else x :: insertDesc e xs

/-- Stable sort of the merged entries by timestamp descending (newest
first). -/
def sortByTimestampDesc : List FeedEntry → List FeedEntry
  | [] => []
  | x :: xs => insertDesc x (sortByTimestampDesc xs)

/-- The JSON body a successful `/api/audit-entries` list request resolves
to (fields the query function reads). -/
structure OnlineData where
  entries : List FeedEntry
  total : Nat
  hasMore : Bool
  deriving DecidableEq, Repr

/-- The value the history query function resolves to. -/
structure HistoryData where
  entries : List FeedEntry
  total : Nat
  hasMore : Bool
  deriving DecidableEq, Repr

/-- history-view.tsx `queryFn` of the `/api/audit-entries` query, after the
offline entries have loaded.  On a successful fetch: filter the offline
entries by the search term, concatenate filtered-offline first then the
server entries, sort the whole list by timestamp descending, and keep the
server response's `total` (plus the filtered-offline count) and `hasMore`.
If the fetch throws or errors, the catch branch returns the
filtered-offline entries with `hasMore: false` instead of rethrowing. -/
def historyQueryFn (searchTerm : String) (offline : List FeedEntry)
    (remote : Except Unit OnlineData) : HistoryData :=
  let filteredOffline := applyFilter searchTerm offline
  match remote with
  | Except.ok od =>
    { entries := sortByTimestampDesc (filteredOffline ++ od.entries)
      total := od.total + filteredOffline.length
      hasMore := od.hasMore }
  | Except.error _ =>
    { entries := filteredOffline
      total := filteredOffline.length
      hasMore := false }

/-- The merged feed of the history view: pending IndexedDB entries
(converted by history-view.tsx `getPendingAudits`) merged with the remote
response by the query function. -/
def getMergedFeed (searchTerm : String) (s : PendingStore)
    (remote : Except Unit OnlineData) : HistoryData :=
  historyQueryFn searchTerm (getPendingAuditsView s) remote

/-- The operations the sync path performs on the IndexedDB `pendingAudits`
store: enqueue (`addPendingAudit`), mark (`markAuditSynced`), and a whole
sync pass (`syncOfflineEntries`). -/
inductive QueueOp where
  | add (audit : AuditPayload) (now : Nat)
  | mark (i : Nat)
  | sync (remote : Nat → RemoteOutcome)

/-- Apply one sync-path operation to the store. -/
def applyOp : QueueOp → PendingStore → PendingStore
  | QueueOp.add a now, s => addPendingAudit a now s
  | QueueOp.mark i, s => markAuditSynced i s
  | QueueOp.sync remote, s => (syncOfflineEntries remote s).1

/-- Apply a sequence of sync-path operations to the store. -/
def applyOps (ops : List QueueOp) (s : PendingStore) : PendingStore :=
  ops.foldl (fun st op => applyOp op st) s

/-- Two back-to-back `SYNC_AUDITS` triggers, in one legal event-loop
interleaving: the handler calls `syncOfflineEntries()` twice without
awaiting, each invocation first awaits its `getPendingAudits()` snapshot —
both resolve against the same store state before either loop body posts —
and then the first invocation's loop runs to completion followed by the
second invocation's loop.  No flag or lock in sw.js prevents this. -/
def runTwoPassesSeqSnapshot (remote : Nat → RemoteOutcome) (s : PendingStore) :
    PendingStore × List SyncEvent :=
  let pend := getPendingAudits s
  let out1 := syncLoop remote pend s
  let out2 := syncLoop remote pend out1.1
  (out2.1, out1.2 ++ out2.2)

/-- Trace observer: is this event a POST of the record with key `i`? -/
def isPostOf (i : Nat) : SyncEvent → Bool
  | SyncEvent.post j _ => j == i
  | SyncEvent.mark _ => false

/-- Trace observer: number of POST attempts in a sync-pass trace. -/
def countPosts (tr : List SyncEvent) : Nat :=
  (tr.filter (fun e => match e with | SyncEvent.post _ _ => true | SyncEvent.mark _ => false)).length

/-- Trace observer: number of `markAuditSynced` invocations in a sync-pass
trace. -/
def countMarks (tr : List SyncEvent) : Nat :=
  (tr.filter (fun e => match e with | SyncEvent.post _ _ => false | SyncEvent.mark _ => true)).length

/-- A concrete payload for witnesses and counterexamples. -/
def payloadA : AuditPayload :=
  { plateNumber := "ABC123", authorizationStatus := "authorized"
    location := none, parkingZone := some "A", notes := none, ocrConfidence := some 90 }

/-- A concrete payload for witnesses and counterexamples. -/
def payloadB : AuditPayload :=
  { plateNumber := "XYZ789", authorizationStatus := "unknown"
    location := none, parkingZone := some "B", notes := none, ocrConfidence := some 80 }

/-- A concrete payload for witnesses and counterexamples. -/
def payloadC : AuditPayload :=
  { plateNumber := "KLM456", authorizationStatus := "unauthorized"
    location := none, parkingZone := some "C", notes := none, ocrConfidence := some 70 }

/-- Store holding pending records A, B, C (keys 1, 2, 3). -/
def storeABC : PendingStore :=
  { records :=
      [ { id := 1, payload := payloadA, timestamp := 10, synced := false }
      , { id := 2, payload := payloadB, timestamp := 20, synced := false }
      , { id := 3, payload := payloadC, timestamp := 30, synced := false } ]
    nextId := 4 }

/-- Remote behaviour that acknowledges records 1 and 3 and rejects
record 2 with a server error. -/
def remoteAC : Nat → RemoteOutcome :=
  fun i => if i = 2 then RemoteOutcome.httpError else RemoteOutcome.ok

/-- Remote behaviour that acknowledges every record. -/
def remoteAll : Nat → RemoteOutcome := fun _ => RemoteOutcome.ok

/-- Store holding the single pending record A (key 1). -/
def storeA : PendingStore :=
  { records := [{ id := 1, payload := payloadA, timestamp := 10, synced := false }]
    nextId := 2 }

/-- Store holding record A (key 1) already marked synced. -/
def storeSyncedA : PendingStore :=
  { records := [{ id := 1, payload := payloadA, timestamp := 10, synced := true }]
    nextId := 2 }

/-- A concrete localStorage entry for witnesses and counterexamples. -/
def entry0 : OfflineAuditEntry :=
  { plateNumber := "ABC123", latitude := none, longitude := none, location := none
    parkingZone := "A", ocrConfidence := 90, authorizationStatus := "authorized"
    notes := none, timestamp := "2026-01-01T00:00:00Z", offlineEntry := true }

/-- A localStorage state holding one pending (undelivered) entry. -/
def lsDemo : LocalStorageState :=
  { pendingAuditEntries := some [entry0], currentCapture := none }

/-- An empty localStorage state. -/
def lsEmpty : LocalStorageState :=
  { pendingAuditEntries := none, currentCapture := none }

/-- Did the loop over snapshot `l` acknowledge (and hence mark) key `i`?
True when some snapshot element has key `i` and the remote acknowledged
that key. -/
def ackHits (remote : Nat → RemoteOutcome) (l : List StoredAudit) (i : Nat) : Bool :=
  l.any (fun a => a.id == i && remote a.id == RemoteOutcome.ok)

/-- Enqueue a whole sequence of captures: fold `addPendingAudit` over
(payload, capture time) pairs. -/
def enqueueAll (l : List (AuditPayload × Nat)) (s : PendingStore) : PendingStore :=
  l.foldl (fun st pt => addPendingAudit pt.1 pt.2 st) s

/-- Observation of a stored record: its payload, capture timestamp and
sync flag (the key is IndexedDB-internal). -/
def projRec (r : StoredAudit) : AuditPayload × Nat × Bool :=
  (r.payload, r.timestamp, r.synced)

/-- Timestamp-descending order between feed entries (newest first). -/
def tsGE (x y : FeedEntry) : Prop := y.timestamp ≤ x.timestamp

/-- A pending offline feed entry for the merge example (timestamp 150). -/
def feedPending : FeedEntry := toFeedEntry { id := 1, payload := payloadA, timestamp := 150, synced := false }

/-- A confirmed server feed entry for the merge example (timestamp 200). -/
def feedServer1 : FeedEntry :=
  { id := "srv-1", plateNumber := "SRV001", authorizationStatus := "authorized"
    timestamp := 200, location := none, parkingZone := none, notes := none
    ocrConfidence := none, isOffline := false }

/-- A confirmed server feed entry for the merge example (timestamp 100). -/
def feedServer2 : FeedEntry :=
  { id := "srv-2", plateNumber := "SRV002", authorizationStatus := "unknown"
    timestamp := 100, location := none, parkingZone := none, notes := none
    ocrConfidence := none, isOffline := false }

/-- Store holding only the pending record behind `feedPending`. -/
def storeMerge : PendingStore :=
  { records := [{ id := 1, payload := payloadA, timestamp := 150, synced := false }]
    nextId := 2 }

/-- Server response holding the two confirmed entries of the merge
example. -/
def onlineMerge : OnlineData :=
  { entries := [feedServer1, feedServer2], total := 2, hasMore := false }

/-- A full client state: record A pending in IndexedDB, entry0 pending in
localStorage. -/
def clientA : ClientState := { idb := storeA, ls := lsDemo }

/-- Two captures enqueued in order while offline (for the C5 witness). -/
def capturesAB : List (AuditPayload × Nat) := [(payloadA, 10), (payloadB, 20)]

/-- A concrete sequence of sync-path queue operations (for the C3
witness): enqueue B, run a pass that acknowledges everything, re-mark
key 1. -/
def opsDemo : List QueueOp :=
  [QueueOp.add payloadB 20, QueueOp.sync remoteAll, QueueOp.mark 1]

/- ------------------------------------------------------------------
   Theorems.  General-purpose helper lemmas first, then one theorem per
   claim (with its witness or counterexample where required).
   ------------------------------------------------------------------ -/

/-- A map whose function fixes every element of the list is the
identity. -/
theorem map_eq_self_of_fix {α : Type} (f : α → α) :
    ∀ (l : List α), (∀ a ∈ l, f a = a) → l.map f = l := by
  intro l h
  induction l with
  | nil => rfl
  | cons x xs ih =>
    simp only [List.map_cons]
    rw [h x (List.mem_cons_self x xs), ih (fun a ha => h a (List.mem_cons_of_mem x ha))]

/-- Setting `synced := true` on a record that is already synced changes
nothing. -/
theorem setSynced_eq_self (r : StoredAudit) (h : r.synced = true) :
    ({ r with synced := true } : StoredAudit) = r := by
  cases r
  simp_all

/-- `setSyncedIf` keeps the key, payload and timestamp, and never clears
the sync flag. -/
theorem setSyncedIf_fields (i : Nat) (r : StoredAudit) :
    (setSyncedIf i r).id = r.id ∧ (setSyncedIf i r).payload = r.payload ∧
    (setSyncedIf i r).timestamp = r.timestamp ∧
    (r.synced = true → (setSyncedIf i r).synced = true) := by
  unfold setSyncedIf
  by_cases h : r.id = i <;> simp [h]

/-- `markAuditSynced` is, on the record list, exactly the map of
`setSyncedIf` (when no key matches, that map is the identity and the
source function does nothing). -/
theorem markAuditSynced_records (i : Nat) (s : PendingStore) :
    (markAuditSynced i s).records = s.records.map (setSyncedIf i) ∧
    (markAuditSynced i s).nextId = s.nextId := by
  unfold markAuditSynced
  cases h : s.records.find? (fun r => r.id == i) with
  | some r => simp
  | none =>
    have hall : ∀ x ∈ s.records, ¬(x.id == i) = true :=
      List.find?_eq_none.mp h
    have hfix : ∀ r ∈ s.records, setSyncedIf i r = r := by
      intro r hr
      have hne : ¬r.id = i := by
        have := hall r hr
        simpa using this
      unfold setSyncedIf
      simp [hne]
    simp [map_eq_self_of_fix _ _ hfix]

/-- The event trace of one sync pass over snapshot `l`: per snapshot
record one POST, followed immediately by one mark exactly when the server
acknowledged that record; the trace does not depend on the store state. -/
theorem syncLoop_trace (remote : Nat → RemoteOutcome) :
    ∀ (l : List StoredAudit) (s : PendingStore),
      (syncLoop remote l s).2
        = l.flatMap (fun a =>
            SyncEvent.post a.id a.payload ::
              (if remote a.id = RemoteOutcome.ok then [SyncEvent.mark a.id] else [])) := by
  intro l
  induction l with
  | nil => intro s; rfl
  | cons a rest ih =>
    intro s
    cases h : remote a.id <;> simp [syncLoop, h, ih]

/-- Reduction of the pass loop on an acknowledged head record. -/
theorem syncLoop_cons_ok (remote : Nat → RemoteOutcome) (a : StoredAudit)
    (rest : List StoredAudit) (s : PendingStore) (h : remote a.id = RemoteOutcome.ok) :
    syncLoop remote (a :: rest) s
      = ((syncLoop remote rest (markAuditSynced a.id s)).1,
         SyncEvent.post a.id a.payload :: SyncEvent.mark a.id ::
           (syncLoop remote rest (markAuditSynced a.id s)).2) := by
  rw [syncLoop, h]

/-- Reduction of the pass loop on a rejected or failed head record. -/
theorem syncLoop_cons_skip (remote : Nat → RemoteOutcome) (a : StoredAudit)
    (rest : List StoredAudit) (s : PendingStore) (h : ¬remote a.id = RemoteOutcome.ok) :
    syncLoop remote (a :: rest) s
      = ((syncLoop remote rest s).1,
         SyncEvent.post a.id a.payload :: (syncLoop remote rest s).2) := by
  cases hr : remote a.id with
  | ok => exact absurd hr h
  | httpError => rw [syncLoop, hr]
  | netError => rw [syncLoop, hr]

/-- Marking commutes pointwise with the accumulated effect of the rest of
an acknowledged pass. -/
theorem ack_step_pointwise (remote : Nat → RemoteOutcome) (a : StoredAudit)
    (rest : List StoredAudit) (r : StoredAudit) (h : remote a.id = RemoteOutcome.ok) :
    (if ackHits remote rest (setSyncedIf a.id r).id
        then { setSyncedIf a.id r with synced := true } else setSyncedIf a.id r)
      = if ackHits remote (a :: rest) r.id then { r with synced := true } else r := by
  by_cases hid : r.id = a.id
  · have hset : setSyncedIf a.id r = { r with synced := true } := by
      simp [setSyncedIf, hid]
    have hhead : ackHits remote (a :: rest) r.id = true := by
      simp [ackHits, hid, h]
    rw [hset, hhead]
    by_cases hrest : ackHits remote rest ({ r with synced := true } : StoredAudit).id = true
    · rw [if_pos hrest, if_pos rfl]
    · rw [if_neg hrest, if_pos rfl]
  · have hset : setSyncedIf a.id r = r := by
      simp [setSyncedIf, hid]
    have hhead : ackHits remote (a :: rest) r.id = ackHits remote rest r.id := by
      have hne : (a.id == r.id) = false := by
        simp [Ne.symm hid]
      simp [ackHits, List.any_cons, hne]
    rw [hset, hhead]

/-- State effect of the pass loop over snapshot `l`: every record whose
key the loop acknowledged comes out with `synced = true`, every other
record is untouched, and the key generator is unchanged. -/
theorem syncLoop_state (remote : Nat → RemoteOutcome) :
    ∀ (l : List StoredAudit) (s : PendingStore),
      (syncLoop remote l s).1.records
        = s.records.map (fun r =>
            if ackHits remote l r.id then { r with synced := true } else r) ∧
      (syncLoop remote l s).1.nextId = s.nextId := by
  intro l
  induction l with
  | nil =>
    intro s
    constructor
    · have : ∀ r ∈ s.records,
          (fun x : StoredAudit =>
            if ackHits remote [] x.id then { x with synced := true } else x) r = r := by
        intro r _
        simp [ackHits]
      exact (map_eq_self_of_fix _ s.records this).symm
    · rfl
  | cons a rest ih =>
    intro s
    by_cases h : remote a.id = RemoteOutcome.ok
    · have hmark := markAuditSynced_records a.id s
      have ihm := ih (markAuditSynced a.id s)
      have hstep : (syncLoop remote (a :: rest) s).1
          = (syncLoop remote rest (markAuditSynced a.id s)).1 := by
        rw [syncLoop_cons_ok remote a rest s h]
      constructor
      · rw [hstep, ihm.1, hmark.1, List.map_map]
        apply List.map_congr_left
        intro r _
        exact ack_step_pointwise remote a rest r h
      · rw [hstep, ihm.2, hmark.2]
    · have ihs := ih s
      have hstep : (syncLoop remote (a :: rest) s).1 = (syncLoop remote rest s).1 := by
        rw [syncLoop_cons_skip remote a rest s h]
      have hno : (remote a.id == RemoteOutcome.ok) = false := by
        simp [h]
      constructor
      · rw [hstep, ihs.1]
        apply List.map_congr_left
        intro r _
        have hsame : ackHits remote (a :: rest) r.id = ackHits remote rest r.id := by
          simp [ackHits, List.any_cons, hno]
        rw [hsame]
      · rw [hstep, ihs.2]

/-- Two pending stores with the same records and key generator are
equal. -/
theorem pendingStore_ext (s t : PendingStore)
    (h1 : s.records = t.records) (h2 : s.nextId = t.nextId) : s = t := by
  cases s
  cases t
  simp_all

/-- Setting the sync flag of the same key twice equals setting it once. -/
theorem setSyncedIf_idem (i : Nat) (r : StoredAudit) :
    setSyncedIf i (setSyncedIf i r) = setSyncedIf i r := by
  by_cases h : r.id = i
  · simp [setSyncedIf, h]
  · simp [setSyncedIf, h]

/-- C8: `markSynced` is idempotent — for every queue state and key,
marking twice produces the same state as marking once, and a second call
on a record that is already synced is a no-op (the source re-`put`s the
identical object, or does nothing when the key is absent; no error
path). -/
theorem markSynced_idempotent (s : PendingStore) (i : Nat) :
    markAuditSynced i (markAuditSynced i s) = markAuditSynced i s ∧
    ((∀ r ∈ s.records, r.id = i → r.synced = true) → markAuditSynced i s = s) := by
  constructor
  · apply pendingStore_ext
    · rw [(markAuditSynced_records i (markAuditSynced i s)).1,
        (markAuditSynced_records i s).1, List.map_map]
      apply List.map_congr_left
      intro r _
      exact setSyncedIf_idem i r
    · rw [(markAuditSynced_records i (markAuditSynced i s)).2,
        (markAuditSynced_records i s).2]
  · intro hall
    apply pendingStore_ext
    · rw [(markAuditSynced_records i s).1]
      apply map_eq_self_of_fix
      intro r hr
      by_cases h : r.id = i
      · unfold setSyncedIf
        rw [if_pos h]
        exact setSynced_eq_self r (hall r hr h)
      · unfold setSyncedIf
        rw [if_neg h]
    · exact (markAuditSynced_records i s).2

/-- Witness for C8 at a store whose single record (key 1) is already
synced: the second call equals the first and the call is a no-op. -/
theorem markSynced_idempotent_witness :
    markAuditSynced 1 (markAuditSynced 1 storeSyncedA) = markAuditSynced 1 storeSyncedA ∧
    markAuditSynced 1 storeSyncedA = storeSyncedA :=
  ⟨(markSynced_idempotent storeSyncedA 1).1,
   (markSynced_idempotent storeSyncedA 1).2 (by decide)⟩

/-- C2: within one sync pass the trace is, per pending record in snapshot
order, exactly one POST followed immediately — before the next record is
attempted — by one `markAuditSynced` invocation when and only when the
server acknowledged that record; consequently every mark in the trace is
for a server-acknowledged, previously pending record, and marks are
interleaved per record, never batched or deferred. -/
theorem sync_marks_after_ack (remote : Nat → RemoteOutcome) (s : PendingStore) :
    (syncOfflineEntries remote s).2
      = (getPendingAudits s).flatMap (fun a =>
          SyncEvent.post a.id a.payload ::
            (if remote a.id = RemoteOutcome.ok then [SyncEvent.mark a.id] else [])) ∧
    ∀ i, SyncEvent.mark i ∈ (syncOfflineEntries remote s).2 →
      remote i = RemoteOutcome.ok ∧
        ∃ a ∈ getPendingAudits s, a.id = i ∧ a.synced = false := by
  have htr : (syncOfflineEntries remote s).2
      = (getPendingAudits s).flatMap (fun a =>
          SyncEvent.post a.id a.payload ::
            (if remote a.id = RemoteOutcome.ok then [SyncEvent.mark a.id] else [])) :=
    syncLoop_trace remote (getPendingAudits s) s
  refine ⟨htr, ?_⟩
  intro i hmem
  rw [htr, List.mem_flatMap] at hmem
  obtain ⟨a, ha, hin⟩ := hmem
  have hsync : a.synced = false := by
    have := (List.mem_filter.mp ha).2
    simpa using this
  rcases List.mem_cons.mp hin with heq | htail
  · exact absurd heq (by simp)
  · by_cases hok : remote a.id = RemoteOutcome.ok
    · rw [if_pos hok] at htail
      have heq : SyncEvent.mark i = SyncEvent.mark a.id := by
        simpa using htail
      have hi : i = a.id := by
        injection heq
      refine ⟨by rw [hi]; exact hok, a, ha, hi.symm, hsync⟩
    · rw [if_neg hok] at htail
      exact absurd htail (List.not_mem_nil _)

/-- Witness for C2 at the three-record store with the server rejecting
record 2: the mark for record 1 in the trace certifies that record 1 was
acknowledged and pending. -/
theorem sync_marks_after_ack_witness :
    remoteAC 1 = RemoteOutcome.ok ∧
      ∃ a ∈ getPendingAudits storeABC, a.id = 1 ∧ a.synced = false :=
  (sync_marks_after_ack remoteAC storeABC).2 1 (by decide)

/-- The two sides of a Boolean filter split the length of a list. -/
theorem filter_length_split {α : Type} (p : α → Bool) (l : List α) :
    (l.filter p).length + (l.filter (fun a => !(p a))).length = l.length := by
  induction l with
  | nil => rfl
  | cons x xs ih =>
    by_cases h : p x <;> simp [List.filter_cons, h] <;> omega

/-- POST and mark counts of a pass trace over snapshot `l`: one POST per
snapshot record, one mark per acknowledged snapshot record. -/
theorem counts_of_trace (remote : Nat → RemoteOutcome) (l : List StoredAudit) :
    countPosts (l.flatMap (fun a =>
        SyncEvent.post a.id a.payload ::
          (if remote a.id = RemoteOutcome.ok then [SyncEvent.mark a.id] else [])))
      = l.length ∧
    countMarks (l.flatMap (fun a =>
        SyncEvent.post a.id a.payload ::
          (if remote a.id = RemoteOutcome.ok then [SyncEvent.mark a.id] else [])))
      = (l.filter (fun a => remote a.id == RemoteOutcome.ok)).length := by
  induction l with
  | nil => exact ⟨rfl, rfl⟩
  | cons a rest ih =>
    by_cases h : remote a.id = RemoteOutcome.ok <;>
      simp [countPosts, countMarks, List.flatMap_cons, List.filter_append,
        List.filter_cons, h] at ih ⊢ <;> omega

/-- C1 (amended): a sync pass attempts (POSTs) every pending record, marks
exactly the server-acknowledged ones synced, and leaves each rejected or
failed record pending while continuing with the rest; the derived counts
satisfy attempted = number of pending records, synced = number of
acknowledged records, failed = attempted − synced.  (The source computes
and returns no `SyncResult` value — see the counterexample.) -/
theorem sync_pass_outcome (remote : Nat → RemoteOutcome) (s : PendingStore) :
    (syncOfflineEntries remote s).1.records
      = s.records.map (fun r =>
          if r.synced = false ∧ remote r.id = RemoteOutcome.ok
          then { r with synced := true } else r) ∧
    countPosts (syncOfflineEntries remote s).2 = (getPendingAudits s).length ∧
    countMarks (syncOfflineEntries remote s).2
      = ((getPendingAudits s).filter (fun a => remote a.id == RemoteOutcome.ok)).length ∧
    countPosts (syncOfflineEntries remote s).2 - countMarks (syncOfflineEntries remote s).2
      = ((getPendingAudits s).filter (fun a => !(remote a.id == RemoteOutcome.ok))).length := by
  have hstate := syncLoop_state remote (getPendingAudits s) s
  have htr : (syncOfflineEntries remote s).2
      = (getPendingAudits s).flatMap (fun a =>
          SyncEvent.post a.id a.payload ::
            (if remote a.id = RemoteOutcome.ok then [SyncEvent.mark a.id] else [])) :=
    syncLoop_trace remote (getPendingAudits s) s
  have hcnt := counts_of_trace remote (getPendingAudits s)
  refine ⟨?_, ?_, ?_, ?_⟩
  · have hrec : (syncOfflineEntries remote s).1.records
        = s.records.map (fun r =>
            if ackHits remote (getPendingAudits s) r.id
            then { r with synced := true } else r) := hstate.1
    rw [hrec]
    apply List.map_congr_left
    intro r hr
    by_cases hsy : r.synced = true
    · have hcond : ¬(r.synced = false ∧ remote r.id = RemoteOutcome.ok) := by
        intro hc
        rw [hsy] at hc
        exact absurd hc.1 (by simp)
      rw [if_neg hcond]
      by_cases hhit : ackHits remote (getPendingAudits s) r.id = true
      · rw [if_pos hhit]
        exact setSynced_eq_self r hsy
      · rw [if_neg hhit]
    · have hsy2 : r.synced = false := by
        cases hb : r.synced
        · rfl
        · exact absurd hb hsy
      have hpend : r ∈ getPendingAudits s :=
        List.mem_filter.mpr ⟨hr, by simp [hsy2]⟩
      by_cases hok : remote r.id = RemoteOutcome.ok
      · have hhit : ackHits remote (getPendingAudits s) r.id = true := by
          unfold ackHits
          rw [List.any_eq_true]
          exact ⟨r, hpend, by simp [hok]⟩
        rw [if_pos hhit, if_pos ⟨hsy2, hok⟩]
      · have hhit : ackHits remote (getPendingAudits s) r.id = false := by
          unfold ackHits
          rw [List.any_eq_false]
          intro a ha
          by_cases hid : a.id = r.id
          · simp [hid, hok]
          · simp [hid]
        rw [hhit]
        have hnc : ¬(r.synced = false ∧ remote r.id = RemoteOutcome.ok) := fun hc => hok hc.2
        simp [hnc]
  · rw [htr]
    exact hcnt.1
  · rw [htr]
    exact hcnt.2
  · rw [htr, hcnt.1, hcnt.2]
    have := filter_length_split (fun a => remote a.id == RemoteOutcome.ok) (getPendingAudits s)
    omega

/-- C1 counterexample: with pending records A, B, C and the server
accepting A and C but rejecting B, the `SYNC_AUDITS` trigger produces
exactly the pass the claim describes (B is the only record left pending),
yet the value delivered back to the caller is `none` — `syncOfflineEntries`
aggregates no counts and the handler posts no reply, so no
`SyncResult{attempted: 3, synced: 2, failed: 1}` is returned to any
caller. -/
theorem sync_returns_no_result_cex :
    (handleMessage SWMessage.syncAudits remoteAC 0 AddOutcome.ok storeABC).2 = none ∧
    getPendingAudits (handleMessage SWMessage.syncAudits remoteAC 0 AddOutcome.ok storeABC).1
      = [{ id := 2, payload := payloadB, timestamp := 20, synced := false }] := by
  constructor
  · rfl
  · decide

/-- Number of POSTs of key `i` in the trace of a pass loop over snapshot
`l`: one per snapshot record with that key, independent of outcomes. -/
theorem posts_in_trace (remote : Nat → RemoteOutcome) (i : Nat) (l : List StoredAudit) :
    ((l.flatMap (fun a =>
        SyncEvent.post a.id a.payload ::
          (if remote a.id = RemoteOutcome.ok then [SyncEvent.mark a.id] else []))).filter
        (isPostOf i)).length
      = (l.filter (fun a => a.id == i)).length := by
  induction l with
  | nil => rfl
  | cons a rest ih =>
    by_cases h : remote a.id = RemoteOutcome.ok <;>
      by_cases hi : (a.id == i) = true <;>
        simp [List.flatMap_cons, List.filter_append, List.filter_cons, isPostOf, h, hi, ih]

/-- C10 (amended): sw.js serializes nothing — but within a single pass
each pending record is POSTed exactly once (and a record not pending at
snapshot time is not POSTed at all), while two back-to-back triggers that
both snapshot the pending set before either posts submit every pending
record once per pass, i.e. twice in the overlapping window. -/
theorem single_pass_post_counts (remote : Nat → RemoteOutcome) (s : PendingStore) (i : Nat) :
    ((syncOfflineEntries remote s).2.filter (isPostOf i)).length
      = ((getPendingAudits s).filter (fun a => a.id == i)).length ∧
    ((runTwoPassesSeqSnapshot remote s).2.filter (isPostOf i)).length
      = 2 * ((getPendingAudits s).filter (fun a => a.id == i)).length := by
  have h1 : (syncLoop remote (getPendingAudits s) s).2
      = (getPendingAudits s).flatMap (fun a =>
          SyncEvent.post a.id a.payload ::
            (if remote a.id = RemoteOutcome.ok then [SyncEvent.mark a.id] else [])) :=
    syncLoop_trace remote (getPendingAudits s) s
  have h2 : (syncLoop remote (getPendingAudits s)
        (syncLoop remote (getPendingAudits s) s).1).2
      = (getPendingAudits s).flatMap (fun a =>
          SyncEvent.post a.id a.payload ::
            (if remote a.id = RemoteOutcome.ok then [SyncEvent.mark a.id] else [])) :=
    syncLoop_trace remote (getPendingAudits s) _
  constructor
  · show ((syncLoop remote (getPendingAudits s) s).2.filter (isPostOf i)).length = _
    rw [h1]
    exact posts_in_trace remote i (getPendingAudits s)
  · show (((syncLoop remote (getPendingAudits s) s).2
        ++ (syncLoop remote (getPendingAudits s)
              (syncLoop remote (getPendingAudits s) s).1).2).filter (isPostOf i)).length = _
    rw [List.filter_append, List.length_append, h1, h2,
      posts_in_trace remote i (getPendingAudits s)]
    omega

/-- C10 counterexample: one pending record, a server that acknowledges
everything, two back-to-back `SYNC_AUDITS` triggers whose snapshots both
resolve before either loop posts — the record is POSTed twice within the
overlapping execution window (the second pass still holds it in its
snapshot even though it is already marked synced). -/
theorem double_post_cex :
    ((runTwoPassesSeqSnapshot remoteAll storeA).2.filter (isPostOf 1)).length = 2 := by
  decide

/-- C4: a sync pass leaves the localStorage `pendingAuditEntries` queue —
the queue the confirmation view's offline-save path appends to — entirely
unchanged, and every payload it POSTs is the payload of a pending record
of the IndexedDB `pendingAudits` store, never an entry of the
localStorage queue. -/
theorem sync_frame_localStorage (remote : Nat → RemoteOutcome) (c : ClientState) :
    (syncOfflineEntriesClient remote c).1.ls = c.ls ∧
    ∀ i p, SyncEvent.post i p ∈ (syncOfflineEntriesClient remote c).2 →
      ∃ a ∈ getPendingAudits c.idb, a.id = i ∧ a.payload = p := by
  constructor
  · rfl
  · intro i p hmem
    have htr : (syncOfflineEntriesClient remote c).2
        = (getPendingAudits c.idb).flatMap (fun a =>
            SyncEvent.post a.id a.payload ::
              (if remote a.id = RemoteOutcome.ok then [SyncEvent.mark a.id] else [])) :=
      syncLoop_trace remote (getPendingAudits c.idb) c.idb
    rw [htr, List.mem_flatMap] at hmem
    obtain ⟨a, ha, hin⟩ := hmem
    rcases List.mem_cons.mp hin with heq | htail
    · have h1 : i = a.id := by
        injection heq
      have h2 : p = a.payload := by
        injection heq
      exact ⟨a, ha, h1.symm, h2.symm⟩
    · exfalso
      by_cases hok : remote a.id = RemoteOutcome.ok
      · rw [if_pos hok] at htail
        simp at htail
      · rw [if_neg hok] at htail
        exact List.not_mem_nil _ htail

/-- Witness for C4: in the concrete client state, the POST of record 1 in
the pass trace comes from the pending IndexedDB record with key 1 and
payload A. -/
theorem sync_frame_localStorage_witness :
    ∃ a ∈ getPendingAudits clientA.idb, a.id = 1 ∧ a.payload = payloadA :=
  (sync_frame_localStorage remoteAll clientA).2 1 payloadA (by decide)

/-- C7: when the remote fetch of confirmed records errors, the query
function does not propagate the error — it resolves to exactly the
filter-applied pending-only list (with `hasMore` false), keeping the
merged view usable offline. -/
theorem merged_feed_offline_fallback (searchTerm : String) (s : PendingStore) (e : Unit) :
    getMergedFeed searchTerm s (Except.error e)
      = { entries := applyFilter searchTerm (getPendingAuditsView s)
          total := (applyFilter searchTerm (getPendingAuditsView s)).length
          hasMore := false } := rfl

/-- Inserting into the descending sort permutes: the result is the element
consed onto the list, up to permutation. -/
theorem insertDesc_perm (e : FeedEntry) (l : List FeedEntry) :
    List.Perm (insertDesc e l) (e :: l) := by
  induction l with
  | nil => exact List.Perm.refl _
  | cons x xs ih =>
    by_cases h : x.timestamp < e.timestamp
    · rw [insertDesc, if_pos h]
    · rw [insertDesc, if_neg h]
      exact (List.Perm.cons x ih).trans (List.Perm.swap e x xs)

/-- The descending sort is a permutation of its input. -/
theorem sortDesc_perm (l : List FeedEntry) :
    List.Perm (sortByTimestampDesc l) l := by
  induction l with
  | nil => exact List.Perm.refl _
  | cons x xs ih =>
    rw [sortByTimestampDesc]
    exact (insertDesc_perm x (sortByTimestampDesc xs)).trans (List.Perm.cons x ih)

/-- Membership after insertion: the inserted element or an original
one. -/
theorem mem_insertDesc {e y : FeedEntry} {l : List FeedEntry}
    (h : y ∈ insertDesc e l) : y = e ∨ y ∈ l := by
  have := (insertDesc_perm e l).mem_iff.mp h
  simpa using this

/-- Insertion preserves the timestamp-descending ordering. -/
theorem insertDesc_sorted (e : FeedEntry) (l : List FeedEntry)
    (h : List.Pairwise tsGE l) : List.Pairwise tsGE (insertDesc e l) := by
  induction l with
  | nil =>
    rw [insertDesc]
    exact List.pairwise_singleton tsGE e
  | cons x xs ih =>
    rcases List.pairwise_cons.mp h with ⟨hx, hxs⟩
    by_cases hlt : x.timestamp < e.timestamp
    · rw [insertDesc, if_pos hlt]
      refine List.pairwise_cons.mpr ⟨?_, h⟩
      intro y hy
      rcases List.mem_cons.mp hy with rfl | hmem
      · exact Nat.le_of_lt hlt
      · exact le_trans (hx y hmem) (Nat.le_of_lt hlt)
    · rw [insertDesc, if_neg hlt]
      refine List.pairwise_cons.mpr ⟨?_, ih hxs⟩
      intro y hy
      rcases mem_insertDesc hy with rfl | hmem
      · exact Nat.le_of_not_lt hlt
      · exact hx y hmem

/-- The descending sort sorts: adjacent timestamps are nonincreasing. -/
theorem sortDesc_sorted (l : List FeedEntry) :
    List.Pairwise tsGE (sortByTimestampDesc l) := by
  induction l with
  | nil => exact List.Pairwise.nil
  | cons x xs ih =>
    rw [sortByTimestampDesc]
    exact insertDesc_sorted x _ ih

/-- C6: on a successful remote fetch the merged feed is the
timestamp-descending sort of the filter-applied pending entries
concatenated (pending first) with the confirmed server entries; it is a
permutation of that concatenation, sorted newest-first, every local
pending entry carries `isOffline = true`, and in the concrete one-pending
plus two-confirmed instance the result is exactly the 3 entries in
timestamp-descending order with the pending one tagged offline. -/
theorem merged_feed_correct (searchTerm : String) (s : PendingStore) (od : OnlineData) :
    (getMergedFeed searchTerm s (Except.ok od)).entries
      = sortByTimestampDesc (applyFilter searchTerm (getPendingAuditsView s) ++ od.entries) ∧
    List.Perm (getMergedFeed searchTerm s (Except.ok od)).entries
      (applyFilter searchTerm (getPendingAuditsView s) ++ od.entries) ∧
    List.Pairwise tsGE (getMergedFeed searchTerm s (Except.ok od)).entries ∧
    (∀ e ∈ getPendingAuditsView s, e.isOffline = true) ∧
    (getMergedFeed "" storeMerge (Except.ok onlineMerge)).entries
      = [feedServer1, feedPending, feedServer2] := by
  refine ⟨rfl, sortDesc_perm _, sortDesc_sorted _, ?_, by decide⟩
  intro e he
  rcases List.mem_map.mp he with ⟨a, _, rfl⟩
  rfl

/-- Witness for C6: the pending entry of the concrete merge instance is
tagged offline. -/
theorem merged_feed_correct_witness : feedPending.isOffline = true :=
  (merged_feed_correct "" storeMerge onlineMerge).2.2.2.1 feedPending (by decide)

/-- Folding `addPendingAudit` appends exactly the enqueued
(payload, time) pairs, as fresh unsynced records, after the existing
ones. -/
theorem enqueueAll_proj (l : List (AuditPayload × Nat)) :
    ∀ s : PendingStore,
      (enqueueAll l s).records.map projRec
        = s.records.map projRec ++ l.map (fun pt => (pt.1, pt.2, false)) := by
  induction l with
  | nil =>
    intro s
    simp [enqueueAll]
  | cons pt rest ih =>
    intro s
    have hstep : enqueueAll (pt :: rest) s = enqueueAll rest (addPendingAudit pt.1 pt.2 s) := rfl
    rw [hstep, ih]
    simp [addPendingAudit, projRec]

/-- C5: enqueueing any sequence of captures into a fresh store and then
listing pending returns exactly the enqueued records — same payloads and
capture times, no more, no fewer — in insertion order, all with the
pending sync state; and when the capture clock is nondecreasing (as
`Date.now()` is), that insertion order is capturedAt-ascending. -/
theorem enqueue_listPending (l : List (AuditPayload × Nat))
    (h : List.Chain' (fun x y : AuditPayload × Nat => x.2 ≤ y.2) l) :
    (getPendingAudits (enqueueAll l emptyStore)).map projRec
      = l.map (fun pt => (pt.1, pt.2, false)) ∧
    List.Chain' (fun r1 r2 : StoredAudit => r1.timestamp ≤ r2.timestamp)
      (getPendingAudits (enqueueAll l emptyStore)) := by
  have hproj : (enqueueAll l emptyStore).records.map projRec
      = l.map (fun pt => (pt.1, pt.2, false)) := by
    have := enqueueAll_proj l emptyStore
    simpa [emptyStore] using this
  have hunsynced : ∀ r ∈ (enqueueAll l emptyStore).records, r.synced = false := by
    intro r hr
    have hmem : projRec r ∈ (enqueueAll l emptyStore).records.map projRec :=
      List.mem_map.mpr ⟨r, hr, rfl⟩
    rw [hproj] at hmem
    rcases List.mem_map.mp hmem with ⟨pt, _, hpt⟩
    have : (r.payload, r.timestamp, r.synced) = (pt.1, pt.2, false) := hpt.symm
    have hsy := congrArg (fun t : AuditPayload × Nat × Bool => t.2.2) this
    simpa using hsy
  have hfil : getPendingAudits (enqueueAll l emptyStore)
      = (enqueueAll l emptyStore).records := by
    unfold getPendingAudits
    apply List.filter_eq_self.mpr
    intro r hr
    simp [hunsynced r hr]
  constructor
  · rw [hfil, hproj]
  · rw [hfil]
    have hts : (enqueueAll l emptyStore).records.map (fun r => r.timestamp)
        = l.map (fun pt => pt.2) := by
      have := congrArg (List.map (fun t : AuditPayload × Nat × Bool => t.2.1)) hproj
      simpa [List.map_map, Function.comp, projRec] using this
    have hchain : List.Chain' (fun a b : Nat => a ≤ b)
        ((enqueueAll l emptyStore).records.map (fun r => r.timestamp)) := by
      rw [hts]
      exact (List.chain'_map (fun pt : AuditPayload × Nat => pt.2)).mpr h
    exact (List.chain'_map (fun r : StoredAudit => r.timestamp)).mp hchain

/-- Witness for C5 at two captures with nondecreasing times. -/
theorem enqueue_listPending_witness :
    (getPendingAudits (enqueueAll capturesAB emptyStore)).map projRec
      = capturesAB.map (fun pt => (pt.1, pt.2, false)) ∧
    List.Chain' (fun r1 r2 : StoredAudit => r1.timestamp ≤ r2.timestamp)
      (getPendingAudits (enqueueAll capturesAB emptyStore)) :=
  enqueue_listPending capturesAB (by
    unfold capturesAB
    exact List.chain'_pair.mpr (by norm_num))

/-- Each sync-path queue operation keeps every record: same key, payload
and capture time, and the sync flag never reverts. -/
theorem applyOp_preserves (op : QueueOp) (s : PendingStore) (r : StoredAudit)
    (h : r ∈ s.records) :
    ∃ r1 ∈ (applyOp op s).records,
      r1.id = r.id ∧ r1.payload = r.payload ∧ r1.timestamp = r.timestamp ∧
      (r.synced = true → r1.synced = true) := by
  cases op with
  | add a now =>
    refine ⟨r, ?_, rfl, rfl, rfl, fun hs => hs⟩
    show r ∈ (addPendingAudit a now s).records
    unfold addPendingAudit
    exact List.mem_append_left _ h
  | mark i =>
    refine ⟨setSyncedIf i r, ?_, ?_, ?_, ?_, ?_⟩
    · show setSyncedIf i r ∈ (markAuditSynced i s).records
      rw [(markAuditSynced_records i s).1]
      exact List.mem_map.mpr ⟨r, h, rfl⟩
    · exact (setSyncedIf_fields i r).1
    · exact (setSyncedIf_fields i r).2.1
    · exact (setSyncedIf_fields i r).2.2.1
    · exact (setSyncedIf_fields i r).2.2.2
  | sync remote =>
    refine ⟨if ackHits remote (getPendingAudits s) r.id then { r with synced := true } else r,
      ?_, ?_, ?_, ?_, ?_⟩
    · have hrec : (syncOfflineEntries remote s).1.records
          = s.records.map (fun x =>
              if ackHits remote (getPendingAudits s) x.id
              then { x with synced := true } else x) :=
        (syncLoop_state remote (getPendingAudits s) s).1
      show _ ∈ (syncOfflineEntries remote s).1.records
      rw [hrec]
      exact List.mem_map.mpr ⟨r, h, rfl⟩
    · by_cases hhit : ackHits remote (getPendingAudits s) r.id = true <;> simp [hhit]
    · by_cases hhit : ackHits remote (getPendingAudits s) r.id = true <;> simp [hhit]
    · by_cases hhit : ackHits remote (getPendingAudits s) r.id = true <;> simp [hhit]
    · intro hs
      by_cases hhit : ackHits remote (getPendingAudits s) r.id = true <;> simp [hhit, hs]

/-- C3 (amended): no sync-path operation on the IndexedDB queue
(`addPendingAudit`, `markAuditSynced`, `syncOfflineEntries`) ever removes
a record — after any sequence of such operations every record is still
present with its key, payload and capture time, its sync state has moved
only pending → synced, and if still pending it is still returned by
`getPendingAudits`.  (The UI-exposed localStorage clear/remove operations
do delete pending entries — see the counterexample.) -/
theorem sync_path_never_drops (ops : List QueueOp) :
    ∀ (s : PendingStore) (r : StoredAudit), r ∈ s.records →
      ∃ r2 ∈ (applyOps ops s).records,
        r2.id = r.id ∧ r2.payload = r.payload ∧ r2.timestamp = r.timestamp ∧
        (r.synced = true → r2.synced = true) ∧
        (r2.synced = false → r2 ∈ getPendingAudits (applyOps ops s)) := by
  induction ops with
  | nil =>
    intro s r h
    refine ⟨r, h, rfl, rfl, rfl, fun hs => hs, fun hs => ?_⟩
    exact List.mem_filter.mpr ⟨h, by simp [hs]⟩
  | cons op rest ih =>
    intro s r h
    obtain ⟨r1, h1, hid, hpay, hts, hmono⟩ := applyOp_preserves op s r h
    obtain ⟨r2, h2, hid2, hpay2, hts2, hmono2, hpend2⟩ := ih (applyOp op s) r1 h1
    exact ⟨r2, h2, hid2.trans hid, hpay2.trans hpay, hts2.trans hts,
      fun hs => hmono2 (hmono hs), hpend2⟩

/-- Witness for C3 at the one-record store and a concrete operation
sequence (enqueue, full pass, re-mark). -/
theorem sync_path_never_drops_witness :
    ∃ r2 ∈ (applyOps opsDemo storeA).records,
      r2.id = 1 ∧ r2.payload = payloadA ∧ r2.timestamp = 10 ∧
      ((false : Bool) = true → r2.synced = true) ∧
      (r2.synced = false → r2 ∈ getPendingAudits (applyOps opsDemo storeA)) :=
  sync_path_never_drops opsDemo storeA
    { id := 1, payload := payloadA, timestamp := 10, synced := false } (by decide)

/-- C3 counterexample: a localStorage queue holding one pending,
never-delivered entry; `clearPendingEntries` (and the settings view's
confirmed clear) removes it outright — afterwards it is neither synced
nor queryable as pending, so the claim that no UI-exposed operation
removes an undelivered pending record is false. -/
theorem clear_removes_pending_cex :
    getPendingEntries lsDemo = [entry0] ∧
    getPendingEntries (clearPendingEntries lsDemo) = [] ∧
    getPendingEntries (handleClearLocalData true lsDemo) = [] :=
  ⟨rfl, rfl, rfl⟩

/-- C9 (amended): enqueue failures are not surfaced the way the claim
states.  On the localStorage path a failure of `enqueue` (e.g. storage
exhaustion) leaves the queue unchanged and surfaces nothing to the caller
— the catch clause only logs — while a non-failing `enqueue` appends the
record.  On the service-worker path only a failure that rejects the
`addPendingAudit` promise (an `openDB` rejection or a synchronous
`store.add` throw) is reported through the message port as
`{success: false, error}`; an asynchronous failure of the issued add
request (e.g. `QuotaExceededError`) goes unreported — the handler posts
`{success: true}` although nothing is stored — and on success the record
is stored and `{success: true}` posted. -/
theorem enqueue_error_paths (e : OfflineAuditEntry) (st : LocalStorageState)
    (a : AuditPayload) (now : Nat) (remote : Nat → RemoteOutcome)
    (s : PendingStore) (err : String) :
    addPendingEntry false e st
      = ({ st with pendingAuditEntries := some (getPendingEntries st ++ [e]) }, none) ∧
    addPendingEntry true e st = (st, none) ∧
    handleMessage (SWMessage.storeOfflineAudit a) remote now AddOutcome.ok s
      = (addPendingAudit a now s, some { success := true, error := none }) ∧
    handleMessage (SWMessage.storeOfflineAudit a) remote now (AddOutcome.earlyErr err) s
      = (s, some { success := false, error := some err }) ∧
    handleMessage (SWMessage.storeOfflineAudit a) remote now AddOutcome.lateErr s
      = (s, some { success := true, error := none }) :=
  ⟨rfl, rfl, rfl, rfl, rfl⟩

/-- C9 counterexample: under storage exhaustion the localStorage `enqueue`
fails — the record is not queued — yet the caller receives plain
`undefined`, no `StorageFullError` or any other error: the failure is
swallowed by the catch clause, not surfaced synchronously. -/
theorem enqueue_swallows_error_cex :
    (addPendingEntry true entry0 lsEmpty).2 = none ∧
    (addPendingEntry true entry0 lsEmpty).1 = lsEmpty ∧
    getPendingEntries (addPendingEntry true entry0 lsEmpty).1 = [] :=
  ⟨rfl, rfl, rfl⟩
